import Mathlib

/-!
Verification development for the retrieval-and-ranking engine of the movie
recommender (app/services/recommendation_service.py together with the
reranking entry points of app/services/gemini_service.py).

The engine is embedded shallowly:

* A catalog row, after the load phase of the service, is a `Movie`: the
  movieId, the title, the genre field with pipe separators already replaced
  by spaces, the nullable parsed release year column, and the aggregate
  rating mean and count.
* A candidate dict built by the service is a `Candidate`.  The numeric
  quality value stored under the quality_score key is a pure function of the
  stored avg_rating and rating_count fields, so the dict key itself is
  modelled by the Boolean flag `hasQuality` (the value being
  `quality_score avg_rating rating_count`), and the reason key by an
  `Option String`.
* The two external collaborators are inputs: the preference extractor's
  output is passed in as a `Preferences` record, and the reranking model's
  behaviour as a `RerankOutcome` (`unavailable` covers a missing model, a
  raised exception and an unparsable response, all of which the source
  handles by returning the candidate list unchanged; `parsed` carries the
  decoded JSON fields).  The TF-IDF cosine-similarity computation over the
  fixed document matrix is a pure function of the query string, passed in
  as `simsOf`; with it the retrieval selection is embedded exactly
  (argsort, reverse, take).
* Numpy argsort sorts ascending, and `insertionSortB` models it as a stable
  sort.  Stability of ties is only relied on for the small arrays (at most
  two elements) of the tied concrete statements, where numpy is in its
  insertion-sort regime and provably stable; the one larger concrete input
  uses pairwise-distinct values, on which every correct sort agrees.
  Python list sort (Timsort, stable, reverse=True keeps input order among
  equal keys) and pandas sort_values on the quality key are modelled by the
  same stable sort with the quality comparator; no statement below depends
  on the tie order of those two sorts.
* Fallible code returns `Option`: `none` is an uncaught Python exception.
  The two reachable exceptions of the engine are the IndexError raised by
  the logging f-string of _rank_candidates_by_quality when the filtered
  candidate list is empty, and the IndexError raised by the logging
  f-string of _get_movies_by_year when year matches exist but none reaches
  the rating_count floor.
* Floating point arithmetic on scores is idealised as exact real
  arithmetic; the comparator used by the sorts is proven equivalent to a
  decidable rational test so that every pipeline function stays computable.
-/

namespace MovieRec

/-! ## String utilities (Python str.lower, in, replace) -/

/-- Python str.lower for the strings of this development: ASCII letters are
lowercased, every other character (including CJK) is unchanged, exactly as in
both languages on the data in question. -/
def lowerStr (s : String) : String := String.mk (s.data.map Char.toLower)

/-- The needle is a prefix of the hay (over character lists). -/
def listStarts : List Char → List Char → Bool
  | [], _ => true
  | _ :: _, [] => false
  | p :: ps, h :: hs => p == h && listStarts ps hs

/-- The needle occurs contiguously in the hay: Python `needle in hay`. -/
def listSub : List Char → List Char → Bool
  | [], _ => true
  | _ :: _, [] => false
  | ps, h :: hs => listStarts ps (h :: hs) || listSub ps hs

/-- Python substring test `needle in hay`. -/
def strIn (needle hay : String) : Bool := listSub needle.data hay.data

/-- Python `s.replace(" ", "").replace("|", "")`: every space and pipe
character removed. -/
def stripSpacesPipes (s : String) : String :=
  String.mk (s.data.filter (fun c => !(c == ' ' || c == '|')))

/-- Python `" ".join(parts)`. -/
def joinSpace : List String → String
  | [] => ""
  | [s] => s
  | s :: rest => s ++ " " ++ joinSpace rest

/-! ## Data model -/

/-- A catalog row as recommend_by_text reads it after _load_and_build:
movieId, title, the genres column with pipes replaced by spaces, the
nullable parsed year column extracted from the title, and the aggregate
rating columns (0 when the movie has no ratings). -/
structure Movie where
  movieId : ℕ
  title : String
  genres : String
  year : Option ℤ
  avg_rating : ℚ
  rating_count : ℕ
deriving DecidableEq

/-- The preference dict returned by extract_preferences (the Gemini path
returns the parsed JSON object, the fallback path a dict of the same
shape). -/
structure Preferences where
  genres : List String
  mood : Option String
  keywords : List String
  era : Option String
  language : Option String
  exclude_genres : List String
  year : Option ℤ
  countries : List String
  exclude_countries : List String
deriving DecidableEq

/-- The preference record with every field empty. -/
def emptyPrefs : Preferences :=
  { genres := [], mood := none, keywords := [], era := none, language := none,
    exclude_genres := [], year := none, countries := [], exclude_countries := [] }

/-- A candidate dict of the service.  The always-present keys are fields;
hasQuality records whether _rank_candidates_by_quality has stored the
quality_score (and rating_score, count_score) keys, whose numeric value is
quality_score avg_rating rating_count; reason records the annotation the
reranker adds. -/
structure Candidate where
  movieId : String
  title : String
  genres : String
  avg_rating : ℚ
  rating_count : ℕ
  hasQuality : Bool := false
  reason : Option String := none
deriving DecidableEq

/-- The candidate dict built from a catalog row on both paths of
recommend_by_text (movieId stringified, no quality_score key, no reason). -/
def movieToCandidate (m : Movie) : Candidate :=
  { movieId := toString m.movieId, title := m.title, genres := m.genres,
    avg_rating := m.avg_rating, rating_count := m.rating_count }

/-- What the reranking model call amounts to for rerank_recommendations:
`unavailable` when self.model is None, the API call raises, or the response
is not JSON (all returning the input list unchanged); `parsed` when a JSON
object was decoded, with its optional ranked_indices list (absent key
defaults to range(len(candidates))) and its reasons map keyed by the index
rendered as a string. -/
inductive RerankOutcome where
  | unavailable
  | parsed (ranked : Option (List ℤ)) (reasons : List (ℤ × String))
deriving DecidableEq

/-! ## Scores (lines 291-318 and 335-339 of recommendation_service.py) -/

/-- rating_score of _rank_candidates_by_quality: avg_rating / 5.0 when
positive, else 0. -/
def rating_score (a : ℚ) : ℚ := if 0 < a then a / 5 else 0

/-- count_score of _rank_candidates_by_quality: min(1, log10(count + 1) /
log10(1000)) when the count is positive, else 0. -/
noncomputable def count_score (c : ℕ) : ℝ :=
  if 0 < c then min 1 (Real.logb 10 (c + 1) / Real.logb 10 1000) else 0

/-- quality_score of _rank_candidates_by_quality:
rating_score * 0.6 + count_score * 0.4. -/
noncomputable def quality_score (a : ℚ) (c : ℕ) : ℝ :=
  (rating_score a : ℝ) * 0.6 + count_score c * 0.4

/-- count_score column of _get_movies_by_year: log10(count + 1) /
log10(1000), clipped to the interval from 0 to 1 (no positivity guard). -/
noncomputable def year_count_score (c : ℕ) : ℝ :=
  min 1 (max 0 (Real.logb 10 (c + 1) / Real.logb 10 1000))

/-- quality_score column of _get_movies_by_year: (avg_rating / 5) * 0.6 +
count_score * 0.4, the rating part unguarded. -/
noncomputable def year_quality (a : ℚ) (c : ℕ) : ℝ :=
  ((a : ℝ) / 5) * 0.6 + year_count_score c * 0.4

/-- The rating count as the logarithmic part of the score sees it: count + 1
capped at 1000 (the saturation point of count_score). -/
def Ncap (c : ℕ) : ℕ := min (c + 1) 1000

/-- Decidable rational test equivalent (lemma ratLtTest_iff) to
d < log10 y - log10 x for whole x, y at least 1. -/
def ratLtTest (d : ℚ) (x y : ℕ) : Bool :=
  decide ((10 : ℚ) ^ d.num * (x : ℚ) ^ d.den < (y : ℚ) ^ d.den)

/-- Decidable test for quality_score a1 c1 < quality_score a2 c2 (lemma
qltB_iff). -/
def qltB (a₁ : ℚ) (c₁ : ℕ) (a₂ : ℚ) (c₂ : ℕ) : Bool :=
  ratLtTest ((9 / 2) * (rating_score a₁ - rating_score a₂)) (Ncap c₁) (Ncap c₂)

/-- Decidable test for year_quality a1 c1 < year_quality a2 c2 (lemma
yqltB_iff). -/
def yqltB (a₁ : ℚ) (c₁ : ℕ) (a₂ : ℚ) (c₂ : ℕ) : Bool :=
  ratLtTest ((9 / 2) * (a₁ / 5 - a₂ / 5)) (Ncap c₁) (Ncap c₂)

/-- Comparator of the Python stable sort of _rank_candidates_by_quality
(descending by the stored quality_score): x may stay before y exactly when
the quality of x is not below the quality of y. -/
def qGEb (x y : Candidate) : Bool :=
  ! qltB x.avg_rating x.rating_count y.avg_rating y.rating_count

/-- Comparator of the pandas sort_values of _get_movies_by_year (descending
by the quality_score column). -/
def myGEb (x y : Movie) : Bool :=
  ! yqltB x.avg_rating x.rating_count y.avg_rating y.rating_count

/-! ## A stable insertion sort with a Boolean comparator.

Models the stable sorts of the source: Python list.sort with reverse=True
keeps equal elements in input order, as does numpy argsort on the small
inputs of the statements below (insertion-sort regime), and the pandas
sort_values call is modelled the same way. -/

/-- Insert a before the first element b with le a b. -/
def orderedInsertB (le : α → α → Bool) (a : α) : List α → List α
  | [] => [a]
  | b :: l => if le a b then a :: b :: l else b :: orderedInsertB le a l

/-- Stable insertion sort: an earlier element stays before a later one
whenever the comparator lets it. -/
def insertionSortB (le : α → α → Bool) : List α → List α
  | [] => []
  | a :: l => orderedInsertB le a (insertionSortB le l)

/-! ## Retrieval selection (lines 110-126 of recommendation_service.py) -/

/-- numpy sims.argsort(): the indices of sims sorted by ascending value,
ties kept in ascending index order (stability of the small-array sort). -/
def argsort (sims : List ℚ) : List ℕ :=
  insertionSortB (fun i j => decide (sims.getD i 0 ≤ sims.getD j 0))
    (List.range sims.length)

/-- sims.argsort()[::-1][:min(20, corpus size)] — the retriever's selection
of candidate indices (in recommend_by_text the corpus size equals the
length of sims, one similarity per catalog row). -/
def selectTopIdx (sims : List ℚ) : List ℕ :=
  (argsort sims).reverse.take (min 20 sims.length)

/-- The ordering the reversed stable argsort realises: i comes before j when
i has strictly greater similarity, or equal similarity and larger index. -/
def Srel (v : List ℚ) (i j : ℕ) : Prop :=
  v.getD i 0 < v.getD j 0 ∨ (v.getD i 0 = v.getD j 0 ∧ i ≤ j)

/-! ## Pipeline pieces -/

/-- The Chinese-to-English genre table of _filter_excluded_genres. -/
def genre_mapping : List (String × String) :=
  [("兒童", "Children"), ("恐怖", "Horror"), ("驚悚", "Thriller"),
   ("血腥", "Crime"), ("懸疑", "Mystery"), ("動作", "Action"),
   ("冒險", "Adventure"), ("動畫", "Animation"), ("喜劇", "Comedy"),
   ("犯罪", "Crime"), ("劇情", "Drama"), ("奇幻", "Fantasy"),
   ("音樂", "Musical"), ("浪漫", "Romance"), ("科幻", "Sci-Fi"),
   ("戰爭", "War"), ("西部", "Western")]

/-- genre_mapping.get(genre, genre): table lookup by exact match, the token
itself when absent. -/
def mapGenre (g : String) : String :=
  match genre_mapping.find? (fun p => p.1 == g) with
  | some p => p.2
  | none => g

/-- The per-candidate test of _filter_excluded_genres: some mapped excluded
token is a substring of the lowercased genre field, or the lowercased genre
field with spaces and pipes removed is a substring of the lowercased
token. -/
def shouldExclude (excludeEn : List String) (genres : String) : Bool :=
  excludeEn.any (fun ex =>
    strIn (lowerStr ex) (lowerStr genres)
      || strIn (stripSpacesPipes (lowerStr genres)) (lowerStr ex))

/-- _filter_excluded_genres: the empty exclusion list returns the candidates
unchanged; otherwise each candidate matching shouldExclude (after mapping
the tokens through genre_mapping) is dropped. -/
def filter_excluded_genres (cands : List Candidate) (prefs : Preferences) :
    List Candidate :=
  if prefs.exclude_genres = [] then cands
  else
    let excludeEn := prefs.exclude_genres.map mapGenre
    cands.filter (fun c => ! shouldExclude excludeEn c.genres)

/-- _rank_candidates_by_quality: store the score keys on every candidate,
sort stably descending by quality_score, then the logging f-string indexes
candidates[0] — an IndexError (none) when the list is empty. -/
def rankByQuality (cands : List Candidate) : Option (List Candidate) :=
  let scored := cands.map (fun c => { c with hasQuality := true })
  let sorted := insertionSortB qGEb scored
  match sorted with
  | [] => none
  | _ => some sorted

/-- Python list slicing l[:k] for an integer k: the first k elements when k
is nonnegative, all but the last |k| when k is negative.  pandas head(k) has
exactly the same meaning, so this also models year_movies.head(top_k). -/
def pySlice (l : List α) (k : ℤ) : List α :=
  if 0 ≤ k then l.take k.toNat else l.take (l.length - (-k).toNat)

/-- _get_movies_by_year: filter the catalog to the rows whose year column
equals the requested year (empty: return [] at once), keep those with
rating_count at least 10, compute the quality columns and sort descending,
convert head(top_k) to dicts; the final logging f-string indexes
year_movies.iloc[0] — an IndexError (none) when the count filter left no
row. -/
def get_movies_by_year (movies : List Movie) (year : ℤ) (top_k : ℤ) :
    Option (List Candidate) :=
  let year_movies := movies.filter (fun m => decide (m.year = some year))
  if year_movies.isEmpty then some []
  else
    let rated := year_movies.filter (fun m => decide (10 ≤ m.rating_count))
    let sorted := insertionSortB myGEb rated
    let cands := (pySlice sorted top_k).map movieToCandidate
    match sorted with
    | [] => none
    | _ => some cands

/-- _enhance_query_with_preferences: the raw text, genres twice, keywords
once, mood once, countries twice, joined by spaces (each part only when its
preference value is truthy). -/
def enhance_query (user_text : String) (p : Preferences) : String :=
  let parts := [user_text]
  let parts := if p.genres = [] then parts
    else parts ++ [joinSpace p.genres, joinSpace p.genres]
  let parts := if p.keywords = [] then parts else parts ++ [joinSpace p.keywords]
  let parts := match p.mood with
    | some m => if m = "" then parts else parts ++ [m]
    | none => parts
  let parts := if p.countries = [] then parts
    else parts ++ [joinSpace p.countries, joinSpace p.countries]
  joinSpace parts

/-- reasons.get(str(idx), default) of rerank_recommendations. -/
def lookupReason (reasons : List (ℤ × String)) (idx : ℤ) : String :=
  match reasons.find? (fun p => p.1 == idx) with
  | some p => p.2
  | none => "推薦給你"

/-- rerank_recommendations of gemini_service.py: unchanged when the model is
unavailable, the call raises, the response is not JSON, or the candidate
list is empty; otherwise each in-range entry of ranked_indices contributes a
copy of that candidate annotated with its reason, out-of-range entries being
skipped (in-range duplicates are kept). -/
def rerank_recommendations (cands : List Candidate) (outcome : RerankOutcome) :
    List Candidate :=
  if cands.isEmpty then cands
  else
    match outcome with
    | .unavailable => cands
    | .parsed rankedOpt reasons =>
      let ranked := rankedOpt.getD ((List.range cands.length).map Int.ofNat)
      ranked.filterMap (fun idx =>
        if 0 ≤ idx ∧ idx < (cands.length : ℤ) then
          (cands[idx.toNat]?).map
            (fun m => { m with reason := some (lookupReason reasons idx) })
        else none)

/-- Python truthiness of preferences.get("year"): the year when present and
nonzero, otherwise nothing. -/
def truthyYear (o : Option ℤ) : Option ℤ :=
  match o with
  | some y => if y = 0 then none else some y
  | none => none

/-- Steps 3-6 of recommend_by_text on the retrieval path: enhance the query,
compute the similarities, select the top min(20, corpus-size) indices, build
the candidate dicts (movies[i]? is some for every selected index whenever
sims holds one entry per catalog row, as cosine_similarity guarantees in
the source; filterMap only keeps the embedding total), drop the excluded
genres. -/
def retrieval_candidates (movies : List Movie) (simsOf : String → List ℚ)
    (prefs : Preferences) (user_text : String) : List Candidate :=
  let sims := simsOf (enhance_query user_text prefs)
  let top_idx := (argsort sims).reverse.take (min 20 movies.length)
  let cands := top_idx.filterMap (fun i => (movies[i]?).map movieToCandidate)
  filter_excluded_genres cands prefs

/-- recommend_by_text: empty text returns []; a truthy extracted year takes
the fast path through _get_movies_by_year with top_k * 2 and slices to
top_k; otherwise retrieval, exclusion filtering, quality ranking (none =
IndexError), reranking of the first 10 with the tail appended unchanged,
and the slice to top_k.  The extracted preferences and the rerank outcome
are inputs because both collaborators are external. -/
def recommend_by_text (movies : List Movie) (simsOf : String → List ℚ)
    (prefs : Preferences) (outcome : RerankOutcome)
    (user_text : String) (top_k : ℤ) : Option (List Candidate) :=
  if user_text = "" then some []
  else
    match truthyYear prefs.year with
    | some y => (get_movies_by_year movies y (top_k * 2)).map
        (fun cs => pySlice cs top_k)
    | none =>
      match rankByQuality (retrieval_candidates movies simsOf prefs user_text) with
      | none => none
      | some ranked =>
        some (pySlice
          (rerank_recommendations (ranked.take 10) outcome ++ ranked.drop 10)
          top_k)

/-- Reference pipeline with reranking disabled entirely: identical to
recommend_by_text except that step 8 (the rerank call on the first 10) is
skipped and the quality-ordered list is sliced directly. -/
def recommend_by_text_noRerank (movies : List Movie) (simsOf : String → List ℚ)
    (prefs : Preferences) (user_text : String) (top_k : ℤ) :
    Option (List Candidate) :=
  if user_text = "" then some []
  else
    match truthyYear prefs.year with
    | some y => (get_movies_by_year movies y (top_k * 2)).map
        (fun cs => pySlice cs top_k)
    | none =>
      match rankByQuality (retrieval_candidates movies simsOf prefs user_text) with
      | none => none
      | some ranked => some (pySlice ranked top_k)

/-! ## Concrete inputs for the closed statements -/

/-- A similarity function that ignores the query: the cosine scores are an
input of the embedding, and the closed statements fix them directly. -/
def simsConst (l : List ℚ) : String → List ℚ := fun _ => l

def movie1999 : Movie :=
  { movieId := 1, title := "Late Film (1999)", genres := "Drama",
    year := some 1999, avg_rating := 0, rating_count := 0 }

def movie1995 : Movie :=
  { movieId := 7, title := "Good Film (1995)", genres := "Comedy",
    year := some 1995, avg_rating := 4, rating_count := 500 }

def movie1950 : Movie :=
  { movieId := 3, title := "Old Film (1950)", genres := "Drama",
    year := some 1950, avg_rating := 4, rating_count := 5 }

def movieHorror : Movie :=
  { movieId := 1, title := "Scary Movie", genres := "Horror",
    year := none, avg_rating := 0, rating_count := 0 }

def movieComedy : Movie :=
  { movieId := 2, title := "Fun Movie", genres := "Comedy",
    year := none, avg_rating := 0, rating_count := 0 }

def movieChinese : Movie :=
  { movieId := 1, title := "Scary", genres := "恐怖",
    year := none, avg_rating := 0, rating_count := 0 }

def movieA : Movie :=
  { movieId := 1, title := "A", genres := "Drama",
    year := none, avg_rating := 0, rating_count := 0 }

def movieB : Movie :=
  { movieId := 2, title := "B", genres := "Comedy",
    year := none, avg_rating := 0, rating_count := 0 }

def prefsYear (y : ℤ) : Preferences := { emptyPrefs with year := some y }

def prefsNoHorror : Preferences := { emptyPrefs with exclude_genres := ["Horror"] }

def prefsNoChinese : Preferences := { emptyPrefs with exclude_genres := ["恐怖"] }

def candA : Candidate :=
  { movieId := "1", title := "A", genres := "Drama",
    avg_rating := 0, rating_count := 0 }

def candB : Candidate :=
  { movieId := "2", title := "B", genres := "Comedy",
    avg_rating := 0, rating_count := 0 }


/-! ## Permutation facts about the stable sort -/

theorem orderedInsertB_perm (le : α → α → Bool) (a : α) (l : List α) :
    List.Perm (orderedInsertB le a l) (a :: l) := by
  induction l with
  | nil => exact .refl _
  | cons b t ih =>
    by_cases h : le a b = true
    · simp [orderedInsertB, h]
    · simp only [orderedInsertB, if_neg h]
      exact (ih.cons b).trans (List.Perm.swap a b t)

theorem insertionSortB_perm (le : α → α → Bool) (l : List α) :
    List.Perm (insertionSortB le l) l := by
  induction l with
  | nil => exact .refl _
  | cons a t ih => exact (orderedInsertB_perm le a _).trans (ih.cons a)

theorem mem_insertionSortB {le : α → α → Bool} {l : List α} {x : α} :
    x ∈ insertionSortB le l ↔ x ∈ l :=
  (insertionSortB_perm le l).mem_iff

theorem length_insertionSortB (le : α → α → Bool) (l : List α) :
    (insertionSortB le l).length = l.length :=
  (insertionSortB_perm le l).length_eq

/-! ## The Boolean comparators decide the real-valued quality ordering -/

theorem Ncap_ge_one (c : ℕ) : 1 ≤ Ncap c := by
  unfold Ncap; omega

theorem logb_ten_thousand : Real.logb 10 1000 = 3 := by
  have h : (1000 : ℝ) = 10 ^ (3 : ℕ) := by norm_num
  rw [h, Real.logb_pow, Real.logb_self_eq_one (by norm_num)]
  norm_num

theorem minlog_eq (c : ℕ) :
    min 1 (Real.logb 10 (c + 1) / Real.logb 10 1000)
      = Real.logb 10 (Ncap c) / 3 := by
  rw [logb_ten_thousand]
  rcases le_or_lt (c + 1) 1000 with h | h
  · have hcap : Ncap c = c + 1 := by unfold Ncap; omega
    have hle : Real.logb 10 (c + 1) ≤ 3 := by
      rw [← logb_ten_thousand]
      apply Real.logb_le_logb_of_le (by norm_num) (by positivity)
      exact_mod_cast h
    rw [hcap, min_eq_right (by linarith : Real.logb 10 ((c : ℝ) + 1) / 3 ≤ 1)]
    push_cast
    ring
  · have hcap : Ncap c = 1000 := by unfold Ncap; omega
    have hge : 3 ≤ Real.logb 10 (c + 1) := by
      rw [← logb_ten_thousand]
      apply Real.logb_le_logb_of_le (by norm_num) (by norm_num)
      exact_mod_cast h.le
    rw [hcap, min_eq_left (by linarith : (1 : ℝ) ≤ Real.logb 10 ((c : ℝ) + 1) / 3)]
    norm_num [logb_ten_thousand]

theorem count_score_eq (c : ℕ) : count_score c = Real.logb 10 (Ncap c) / 3 := by
  unfold count_score
  rcases Nat.eq_zero_or_pos c with h | h
  · subst h
    rw [if_neg (by omega)]
    have : Ncap 0 = 1 := rfl
    rw [this]
    simp
  · rw [if_pos h]
    exact minlog_eq c

theorem year_count_score_eq (c : ℕ) :
    year_count_score c = Real.logb 10 (Ncap c) / 3 := by
  unfold year_count_score
  have hnn : 0 ≤ Real.logb 10 ((c : ℝ) + 1) / Real.logb 10 1000 := by
    apply div_nonneg
    · exact Real.logb_nonneg (by norm_num) (by linarith [Nat.cast_nonneg (α := ℝ) c])
    · rw [logb_ten_thousand]; norm_num
  rw [max_eq_right hnn]
  exact minlog_eq c

theorem ratLtTest_iff (d : ℚ) (x y : ℕ) (hx : 1 ≤ x) (hy : 1 ≤ y) :
    ratLtTest d x y = true ↔ (d : ℝ) < Real.logb 10 y - Real.logb 10 x := by
  have hx0 : (0 : ℝ) < (x : ℝ) := by exact_mod_cast Nat.lt_of_lt_of_le Nat.zero_lt_one hx
  have hy0 : (0 : ℝ) < (y : ℝ) := by exact_mod_cast Nat.lt_of_lt_of_le Nat.zero_lt_one hy
  have hq : ((d : ℝ)) * (d.den : ℝ) = ((d.num : ℤ) : ℝ) := by
    rw [Rat.cast_def]
    field_simp
  rw [← Real.logb_div hy0.ne' hx0.ne',
    Real.lt_logb_iff_rpow_lt (by norm_num) (div_pos hy0 hx0),
    ← pow_lt_pow_iff_left₀ (Real.rpow_pos_of_pos (by norm_num) (d : ℝ)).le
      (div_pos hy0 hx0).le d.den_nz,
    ← Real.rpow_natCast ((10 : ℝ) ^ (d : ℝ)) d.den,
    ← Real.rpow_mul (by norm_num : (0 : ℝ) ≤ 10), hq, Real.rpow_intCast,
    div_pow, lt_div_iff₀ (by positivity : (0 : ℝ) < (x : ℝ) ^ d.den)]
  unfold ratLtTest
  rw [decide_eq_true_iff, ← Rat.cast_lt (K := ℝ)]
  push_cast
  exact Iff.rfl

theorem mix_lt_iff (r₁ r₂ : ℚ) (c₁ c₂ : ℕ) :
    ratLtTest ((9 / 2) * (r₁ - r₂)) (Ncap c₁) (Ncap c₂) = true
      ↔ (r₁ : ℝ) * 0.6 + (Real.logb 10 (Ncap c₁) / 3) * 0.4
          < (r₂ : ℝ) * 0.6 + (Real.logb 10 (Ncap c₂) / 3) * 0.4 := by
  rw [ratLtTest_iff _ _ _ (Ncap_ge_one c₁) (Ncap_ge_one c₂)]
  have hcast : (((9 / 2) * (r₁ - r₂) : ℚ) : ℝ) = (9 / 2) * ((r₁ : ℝ) - (r₂ : ℝ)) := by
    push_cast
    ring
  rw [hcast]
  have h6 : (0.6 : ℝ) = 3 / 5 := by norm_num
  have h4 : (0.4 : ℝ) = 2 / 5 := by norm_num
  rw [h6, h4]
  constructor <;> intro h <;> linarith

/-- The sort key of _rank_candidates_by_quality: the Boolean test qltB is
exactly the strict comparison of the real quality scores. -/
theorem qltB_iff (a₁ a₂ : ℚ) (c₁ c₂ : ℕ) :
    qltB a₁ c₁ a₂ c₂ = true ↔ quality_score a₁ c₁ < quality_score a₂ c₂ := by
  unfold qltB quality_score
  rw [count_score_eq, count_score_eq]
  exact mix_lt_iff (rating_score a₁) (rating_score a₂) c₁ c₂

/-- The sort key of _get_movies_by_year: the Boolean test yqltB is exactly
the strict comparison of the real quality columns. -/
theorem yqltB_iff (a₁ a₂ : ℚ) (c₁ c₂ : ℕ) :
    yqltB a₁ c₁ a₂ c₂ = true ↔ year_quality a₁ c₁ < year_quality a₂ c₂ := by
  unfold yqltB year_quality
  rw [year_count_score_eq, year_count_score_eq]
  have := mix_lt_iff (a₁ / 5) (a₂ / 5) c₁ c₂
  rw [Rat.cast_div, Rat.cast_div] at this
  norm_num at this ⊢
  exact this

/-- The candidate comparator qGEb keeps x before y exactly when the quality
of x is at least the quality of y. -/
theorem qGEb_iff (x y : Candidate) :
    qGEb x y = true
      ↔ quality_score y.avg_rating y.rating_count
          ≤ quality_score x.avg_rating x.rating_count := by
  unfold qGEb
  rw [Bool.not_eq_true', ← not_lt,
    ← qltB_iff x.avg_rating y.avg_rating x.rating_count y.rating_count]
  simp

/-- The movie comparator myGEb keeps x before y exactly when the year
quality of x is at least the year quality of y. -/
theorem myGEb_iff (x y : Movie) :
    myGEb x y = true
      ↔ year_quality y.avg_rating y.rating_count
          ≤ year_quality x.avg_rating x.rating_count := by
  unfold myGEb
  rw [Bool.not_eq_true', ← not_lt,
    ← yqltB_iff x.avg_rating y.avg_rating x.rating_count y.rating_count]
  simp

/-! ## Stability of the retrieval selection -/

theorem Srel.val_le {v : List ℚ} {a b : ℕ} (h : Srel v a b) :
    v.getD a 0 ≤ v.getD b 0 := by
  rcases h with h | ⟨h, _⟩
  · exact h.le
  · exact h.le

theorem srel_of_le_of_le {v : List ℚ} {x z : ℕ}
    (h1 : v.getD x 0 ≤ v.getD z 0) (h2 : x ≤ z) : Srel v x z := by
  rcases lt_or_eq_of_le h1 with h | h
  · exact Or.inl h
  · exact Or.inr ⟨h, h2⟩

theorem orderedInsertB_pairwise_srel (v : List ℚ) (x : ℕ) (m : List ℕ)
    (hm : List.Pairwise (Srel v) m) (hx : ∀ y ∈ m, x < y) :
    List.Pairwise (Srel v)
      (orderedInsertB (fun i j => decide (v.getD i 0 ≤ v.getD j 0)) x m) := by
  induction m with
  | nil => simp [orderedInsertB]
  | cons b t ih =>
    rcases List.pairwise_cons.mp hm with ⟨hb, ht⟩
    by_cases h : (decide (v.getD x 0 ≤ v.getD b 0)) = true
    · rw [orderedInsertB, if_pos h]
      have hxb : v.getD x 0 ≤ v.getD b 0 := of_decide_eq_true h
      refine List.pairwise_cons.mpr ⟨?_, hm⟩
      intro z hz
      rcases List.mem_cons.mp hz with h' | h'
      · subst h'
        exact srel_of_le_of_le hxb (hx z (by simp)).le
      · exact srel_of_le_of_le (le_trans hxb (hb z h').val_le)
          (hx z (by simp [h'])).le
    · rw [orderedInsertB, if_neg h]
      have hbx : v.getD b 0 < v.getD x 0 :=
        lt_of_not_le (fun hc => h (decide_eq_true hc))
      refine List.pairwise_cons.mpr
        ⟨?_, ih ht (fun y hy => hx y (by simp [hy]))⟩
      intro z hz
      have hz' : z ∈ x :: t := (orderedInsertB_perm _ x t).mem_iff.mp hz
      rcases List.mem_cons.mp hz' with h' | h'
      · subst h'
        exact Or.inl hbx
      · exact hb z h'

theorem insertionSortB_pairwise_srel (v : List ℚ) (l : List ℕ)
    (hl : List.Pairwise (· < ·) l) :
    List.Pairwise (Srel v)
      (insertionSortB (fun i j => decide (v.getD i 0 ≤ v.getD j 0)) l) := by
  induction l with
  | nil => exact List.Pairwise.nil
  | cons a t ih =>
    rcases List.pairwise_cons.mp hl with ⟨ha, ht⟩
    exact orderedInsertB_pairwise_srel v a _ (ih ht)
      (fun y hy => ha y (mem_insertionSortB.mp hy))

theorem argsort_pairwise (v : List ℚ) : List.Pairwise (Srel v) (argsort v) :=
  insertionSortB_pairwise_srel v _ (List.pairwise_lt_range _)

theorem argsort_perm (v : List ℚ) :
    List.Perm (argsort v) (List.range v.length) :=
  insertionSortB_perm _ _

/-! ## Helper facts about the pipeline pieces -/

theorem pySlice_subset (l : List α) (k : ℤ) : ∀ x ∈ pySlice l k, x ∈ l := by
  intro x hx
  unfold pySlice at hx
  split at hx <;> exact List.mem_of_mem_take hx

theorem rerank_unavailable (cands : List Candidate) :
    rerank_recommendations cands .unavailable = cands := by
  unfold rerank_recommendations
  split <;> rfl

theorem rerank_mem {cands : List Candidate} {o : RerankOutcome} {c : Candidate}
    (hc : c ∈ rerank_recommendations cands o) :
    ∃ c' ∈ cands, c = c' ∨ ∃ r, c = { c' with reason := some r } := by
  unfold rerank_recommendations at hc
  split at hc
  · exact ⟨c, hc, Or.inl rfl⟩
  · cases o with
    | unavailable => exact ⟨c, hc, Or.inl rfl⟩
    | parsed ro rs =>
      simp only at hc
      rcases List.mem_filterMap.mp hc with ⟨idx, _, hfx⟩
      split at hfx
      · rcases Option.map_eq_some'.mp hfx with ⟨m, hm, heq⟩
        exact ⟨m, List.getElem?_mem hm, Or.inr ⟨_, heq.symm⟩⟩
      · simp at hfx

theorem rankByQuality_eq_some {cands ranked : List Candidate}
    (h : rankByQuality cands = some ranked) :
    ranked = insertionSortB qGEb
      (cands.map (fun c => { c with hasQuality := true })) := by
  simp only [rankByQuality] at h
  split at h
  · exact absurd h (by simp)
  · exact (Option.some.inj h).symm

theorem rankByQuality_mem {cands ranked : List Candidate}
    (h : rankByQuality cands = some ranked) {c : Candidate} (hc : c ∈ ranked) :
    ∃ c' ∈ cands, c = { c' with hasQuality := true } := by
  rw [rankByQuality_eq_some h] at hc
  rcases List.mem_map.mp (mem_insertionSortB.mp hc) with ⟨c', hc', rfl⟩
  exact ⟨c', hc', rfl⟩

theorem filter_excluded_sub {cands : List Candidate} {prefs : Preferences}
    {c : Candidate} (hc : c ∈ filter_excluded_genres cands prefs) :
    c ∈ cands ∧ ∀ g ∈ prefs.exclude_genres,
      strIn (lowerStr (mapGenre g)) (lowerStr c.genres) = false := by
  unfold filter_excluded_genres at hc
  split at hc
  · rename_i hempty
    refine ⟨hc, ?_⟩
    rw [hempty]
    intro g hg
    simp at hg
  · rcases List.mem_filter.mp hc with ⟨hmem, hkeep⟩
    refine ⟨hmem, ?_⟩
    intro g hg
    have hfalse : shouldExclude (prefs.exclude_genres.map mapGenre) c.genres = false := by
      simpa using hkeep
    unfold shouldExclude at hfalse
    rw [List.any_eq_false] at hfalse
    have h2 := hfalse (mapGenre g) (List.mem_map_of_mem mapGenre hg)
    have h3 : (strIn (lowerStr (mapGenre g)) (lowerStr c.genres)
        || strIn (stripSpacesPipes (lowerStr c.genres)) (lowerStr (mapGenre g))) = false := by
      simpa using h2
    exact (Bool.or_eq_false_iff.mp h3).1

theorem retrieval_candidates_mem {movies : List Movie} {simsOf : String → List ℚ}
    {prefs : Preferences} {user_text : String} {c : Candidate}
    (hc : c ∈ retrieval_candidates movies simsOf prefs user_text) :
    (∃ m ∈ movies, c = movieToCandidate m)
      ∧ ∀ g ∈ prefs.exclude_genres,
          strIn (lowerStr (mapGenre g)) (lowerStr c.genres) = false := by
  unfold retrieval_candidates at hc
  rcases filter_excluded_sub hc with ⟨hmem, hexcl⟩
  refine ⟨?_, hexcl⟩
  rcases List.mem_filterMap.mp hmem with ⟨i, _, heq⟩
  rcases Option.map_eq_some'.mp heq with ⟨m, hm, rfl⟩
  exact ⟨m, List.getElem?_mem hm, rfl⟩

theorem get_movies_by_year_mem {movies : List Movie} {y k : ℤ}
    {l : List Candidate} (h : get_movies_by_year movies y k = some l)
    {c : Candidate} (hc : c ∈ l) :
    ∃ m ∈ movies, m.year = some y ∧ 10 ≤ m.rating_count
      ∧ c = movieToCandidate m := by
  simp only [get_movies_by_year] at h
  split at h
  · cases Option.some.inj h
    simp at hc
  · split at h
    · exact absurd h (by simp)
    · cases Option.some.inj h
      rcases List.mem_map.mp hc with ⟨m, hm, rfl⟩
      have hm2 := pySlice_subset _ _ _ hm
      have hm3 := mem_insertionSortB.mp hm2
      rcases List.mem_filter.mp hm3 with ⟨hm4, hcount⟩
      rcases List.mem_filter.mp hm4 with ⟨hm5, hyear⟩
      exact ⟨m, hm5, of_decide_eq_true hyear, of_decide_eq_true hcount, rfl⟩

section ClaimTheorems

attribute [local semireducible] Rat.add Rat.mul Rat.sub Rat.inv Rat.ofScientific

/-- C1: whenever the reranker raises an exception or the reranking model is
unavailable, rerank_recommendations hands back its candidate slice
unchanged, and recommend_by_text produces exactly the same candidate set,
order and outcome as the pipeline with reranking disabled entirely: the
pre-rerank quality order is used and the request does not fail because of
the reranker. -/
theorem rerank_failure_eq_noRerank :
    (∀ cands : List Candidate,
      rerank_recommendations cands .unavailable = cands)
    ∧ ∀ (movies : List Movie) (simsOf : String → List ℚ) (prefs : Preferences)
        (user_text : String) (top_k : ℤ),
        recommend_by_text movies simsOf prefs .unavailable user_text top_k
          = recommend_by_text_noRerank movies simsOf prefs user_text top_k := by
  refine ⟨rerank_unavailable, ?_⟩
  intro movies simsOf prefs user_text top_k
  unfold recommend_by_text recommend_by_text_noRerank
  split
  · rfl
  · split
    · rfl
    · cases hr : rankByQuality (retrieval_candidates movies simsOf prefs user_text) with
      | none => simp [hr]
      | some ranked => simp [hr, rerank_unavailable, List.take_append_drop]

/-- C2 counterexample: a non-null extracted year 0 is falsy in Python, so
the request takes the retrieval path and returns a candidate whose catalog
item has parsed year 1999 and rating_count 0, not year 0 and count at least
10. -/
theorem year_zero_takes_retrieval_path :
    recommend_by_text [movie1999] (simsConst [0]) (prefsYear 0) .unavailable "q" 5
      = some [{ movieToCandidate movie1999 with hasQuality := true }]
    ∧ (prefsYear 0).year = some 0
    ∧ movie1999.year = some 1999
    ∧ movie1999.rating_count < 10 :=
  ⟨by decide, rfl, rfl, by decide⟩

/-- C2 amended: for a truthy (non-null and nonzero) extracted year Y, every
candidate returned by recommend_by_text stems from a catalog item whose
parsed year equals Y and whose rating_count is at least 10. -/
theorem year_fastpath_year_and_count
    (movies : List Movie) (simsOf : String → List ℚ) (prefs : Preferences)
    (outcome : RerankOutcome) (user_text : String) (top_k : ℤ) (y : ℤ)
    (hy : prefs.year = some y) (hy0 : y ≠ 0) (res : List Candidate)
    (hres : recommend_by_text movies simsOf prefs outcome user_text top_k
      = some res) :
    ∀ c ∈ res, 10 ≤ c.rating_count
      ∧ ∃ m ∈ movies, m.year = some y ∧ movieToCandidate m = c := by
  intro c hc
  have hty : truthyYear prefs.year = some y := by
    rw [hy]
    simp [truthyYear, hy0]
  unfold recommend_by_text at hres
  split at hres
  · cases Option.some.inj hres
    simp at hc
  · split at hres
    · rename_i y' heq
      have hy' : y' = y := Option.some.inj (heq.symm.trans hty)
      subst hy'
      rcases Option.map_eq_some'.mp hres with ⟨l, hgm, hsl⟩
      have hc' : c ∈ l := pySlice_subset _ _ _ (hsl ▸ hc)
      rcases get_movies_by_year_mem hgm hc' with ⟨m, hm, hmy, hmc, rfl⟩
      exact ⟨hmc, m, hm, hmy, rfl⟩
    · rename_i heq
      exact absurd (heq.symm.trans hty) (by simp)

/-- C2 witness: the amended theorem at a concrete year-1995 request. -/
theorem year_fastpath_year_and_count_witness :
    10 ≤ (movieToCandidate movie1995).rating_count
      ∧ ∃ m ∈ [movie1995], m.year = some 1995
          ∧ movieToCandidate m = movieToCandidate movie1995 :=
  year_fastpath_year_and_count [movie1995] (simsConst [0]) (prefsYear 1995)
    .unavailable "q" 5 1995 rfl (by decide) [movieToCandidate movie1995]
    (by decide) (movieToCandidate movie1995) (by decide)

/-- C3 counterexample: with top_k = -1 the Python slice candidates[:-1]
drops only the last element, so the request returns one candidate instead
of the empty list the claim demands for every top_k at most 0. -/
theorem negative_topk_nonempty :
    recommend_by_text [movieA, movieB] (simsConst [1, 0]) emptyPrefs
        .unavailable "q" (-1)
      = some [{ movieToCandidate movieA with hasQuality := true }]
    ∧ [{ movieToCandidate movieA with hasQuality := true }]
        ≠ ([] : List Candidate) :=
  ⟨by decide, by decide⟩

/-- C3 amended: with top_k = 0 every request that completes returns the
empty list, and top_k itself never causes an error; a negative top_k
instead drops the last |top_k| elements of the final candidate list and
can return a nonempty list. -/
theorem topk_zero_gives_empty
    (movies : List Movie) (simsOf : String → List ℚ) (prefs : Preferences)
    (outcome : RerankOutcome) (user_text : String) (res : List Candidate)
    (hres : recommend_by_text movies simsOf prefs outcome user_text 0
      = some res) :
    res = [] := by
  have hslice : ∀ l : List Candidate, pySlice l 0 = [] := by
    intro l
    unfold pySlice
    rw [if_pos (le_refl (0 : ℤ))]
    rfl
  unfold recommend_by_text at hres
  split at hres
  · exact (Option.some.inj hres).symm
  · split at hres
    · rcases Option.map_eq_some'.mp hres with ⟨l, _, hsl⟩
      rw [← hsl, hslice]
    · split at hres
      · exact absurd hres (by simp)
      · rw [← Option.some.inj hres, hslice]

/-- C3 witness: the amended theorem at a concrete top_k = 0 request. -/
theorem topk_zero_gives_empty_witness :
    ([] : List Candidate) = []
      ∧ recommend_by_text [movieA] (simsConst [0]) emptyPrefs .unavailable
          "q" 0 = some [] :=
  ⟨topk_zero_gives_empty [movieA] (simsConst [0]) emptyPrefs .unavailable "q"
    [] (by decide), by decide⟩

/-- C4: when the exclusion filter removes every retrieved candidate, the
logging f-string of _rank_candidates_by_quality indexes candidates[0] of an
empty list, so the request raises IndexError (none) instead of returning
the empty list. -/
theorem filter_all_excluded_raises :
    recommend_by_text [movieHorror] (simsConst [0]) prefsNoHorror .unavailable
      "scary" 5 = none := by decide

/-- C5: a requested year all of whose catalog matches fall below the
10-rating floor drives _get_movies_by_year into the IndexError of its final
logging f-string (none); only the no-year-match case returns the empty
list. -/
theorem year_low_count_raises :
    recommend_by_text [movie1950] (simsConst [0]) (prefsYear 1950) .unavailable
        "q" 5 = none
    ∧ recommend_by_text [movie1950] (simsConst [0]) (prefsYear 1800) .unavailable
        "q" 5 = some [] :=
  ⟨by decide, by decide⟩

/-- C6 counterexample: the excluded token 恐怖 is mapped to Horror before
matching, so a candidate whose genre field contains the raw token 恐怖
itself survives the filter and is returned, refuting the claimed
biconditional and the claimed substring absence for the raw token. -/
theorem chinese_exclude_token_not_filtered :
    recommend_by_text [movieChinese] (simsConst [0]) prefsNoChinese .unavailable
        "q" 5
      = some [{ movieToCandidate movieChinese with hasQuality := true }]
    ∧ strIn (lowerStr "恐怖")
        (lowerStr ({ movieToCandidate movieChinese with hasQuality := true }).genres)
        = true
    ∧ prefsNoChinese.exclude_genres = ["恐怖"] :=
  ⟨by decide, by decide, rfl⟩

/-- C6 amended: on the retrieval path the exclusion filter works on the
excluded tokens mapped through the fixed Chinese-to-English genre table
(identity on other tokens): no returned candidate has a mapped excluded
token as a case-insensitive substring of its genre field. -/
theorem excluded_genres_mapped_absent
    (movies : List Movie) (simsOf : String → List ℚ) (prefs : Preferences)
    (outcome : RerankOutcome) (user_text : String) (top_k : ℤ)
    (hyr : truthyYear prefs.year = none) (res : List Candidate)
    (hres : recommend_by_text movies simsOf prefs outcome user_text top_k
      = some res) :
    ∀ c ∈ res, ∀ g ∈ prefs.exclude_genres,
      strIn (lowerStr (mapGenre g)) (lowerStr c.genres) = false := by
  intro c hc g hg
  unfold recommend_by_text at hres
  split at hres
  · cases Option.some.inj hres
    simp at hc
  · split at hres
    · rename_i y heq
      exact absurd (heq.symm.trans hyr) (by simp)
    · split at hres
      · exact absurd hres (by simp)
      · rename_i ranked hrank
        rw [← Option.some.inj hres] at hc
        have hc2 := pySlice_subset _ _ _ hc
        have hc3 : ∃ c' ∈ ranked, c.genres = c'.genres := by
          rcases List.mem_append.mp hc2 with h | h
          · rcases rerank_mem h with ⟨c', hc', hor⟩
            refine ⟨c', List.mem_of_mem_take hc', ?_⟩
            rcases hor with rfl | ⟨r, rfl⟩
            · rfl
            · rfl
          · exact ⟨c, List.mem_of_mem_drop h, rfl⟩
        rcases hc3 with ⟨c', hc', hgen⟩
        rcases rankByQuality_mem hrank hc' with ⟨c'', hc'', rfl⟩
        rcases retrieval_candidates_mem hc'' with ⟨_, hexcl⟩
        rw [hgen]
        exact hexcl g hg

/-- C6 witness: Horror excluded at a concrete retrieval request; the
returned Comedy candidate does not contain the mapped token. -/
theorem excluded_genres_mapped_absent_witness :
    strIn (lowerStr (mapGenre "Horror"))
      (lowerStr ({ movieToCandidate movieComedy with hasQuality := true }).genres)
      = false :=
  excluded_genres_mapped_absent [movieHorror, movieComedy]
    (simsConst [1, 1/2]) prefsNoHorror .unavailable "q" 5 rfl
    [{ movieToCandidate movieComedy with hasQuality := true }] (by decide)
    { movieToCandidate movieComedy with hasQuality := true } (by decide)
    "Horror" (by decide)

/-- C7: for 0 ≤ avg_rating ≤ 5 and any rating count, the quality score of
the ranking step equals 0.6 * (avg/5 if avg positive else 0) + 0.4 *
min(1, log10(count+1)/log10(1000)), the year-path quality column computes
the same value, and the score lies in the interval from 0 to 1. -/
theorem quality_score_formula_bounds (a : ℚ) (c : ℕ)
    (h0 : 0 ≤ a) (h5 : a ≤ 5) :
    quality_score a c
        = 0.6 * (if 0 < a then (a : ℝ) / 5 else 0)
          + 0.4 * min 1 (Real.logb 10 (c + 1) / Real.logb 10 1000)
      ∧ year_quality a c = quality_score a c
      ∧ 0 ≤ quality_score a c ∧ quality_score a c ≤ 1 := by
  have hrs : (rating_score a : ℝ) = if 0 < a then (a : ℝ) / 5 else 0 := by
    unfold rating_score
    split <;> push_cast <;> ring
  have hcs : count_score c
      = min 1 (Real.logb 10 (c + 1) / Real.logb 10 1000) := by
    rw [count_score_eq]
    exact (minlog_eq c).symm
  have h6 : (0.6 : ℝ) = 3 / 5 := by norm_num
  have h4 : (0.4 : ℝ) = 2 / 5 := by norm_num
  have hrs0 : 0 ≤ (rating_score a : ℝ) ∧ (rating_score a : ℝ) ≤ 1 := by
    rw [hrs]
    split
    · have ha : (0 : ℝ) ≤ (a : ℝ) := by exact_mod_cast h0
      have ha5 : (a : ℝ) ≤ 5 := by exact_mod_cast h5
      constructor <;> [linarith; linarith]
    · norm_num
  have hcs0 : 0 ≤ count_score c ∧ count_score c ≤ 1 := by
    rw [count_score_eq]
    constructor
    · apply div_nonneg ?_ (by norm_num)
      exact Real.logb_nonneg (by norm_num) (by exact_mod_cast Ncap_ge_one c)
    · have hle : Real.logb 10 (Ncap c) ≤ 3 := by
        rw [← logb_ten_thousand]
        apply Real.logb_le_logb_of_le (by norm_num)
        · have := Ncap_ge_one c
          have : (1 : ℝ) ≤ (Ncap c : ℝ) := by exact_mod_cast this
          linarith
        · exact_mod_cast (by unfold Ncap; omega : Ncap c ≤ 1000)
      linarith
  have hform : quality_score a c
      = 0.6 * (if 0 < a then (a : ℝ) / 5 else 0)
        + 0.4 * min 1 (Real.logb 10 (c + 1) / Real.logb 10 1000) := by
    unfold quality_score
    rw [hrs, hcs]
    ring
  refine ⟨hform, ?_, ?_, ?_⟩
  · unfold year_quality quality_score
    rw [year_count_score_eq, count_score_eq, hrs]
    by_cases hpos : 0 < a
    · rw [if_pos hpos]
    · have ha0 : a = 0 := le_antisymm (not_lt.mp hpos) h0
      rw [if_neg hpos, ha0]
      norm_num
  · unfold quality_score
    rw [h6, h4]
    rcases hrs0 with ⟨hr1, _⟩
    rcases hcs0 with ⟨hc1, _⟩
    linarith
  · unfold quality_score
    rw [h6, h4]
    rcases hrs0 with ⟨_, hr2⟩
    rcases hcs0 with ⟨_, hc2⟩
    linarith

/-- C7 witness: the theorem at avg_rating 21/5 and rating_count 500. -/
theorem quality_score_formula_bounds_witness :
    ((0 : ℚ) ≤ 21 / 5) ∧ ((21 / 5 : ℚ) ≤ 5)
      ∧ (quality_score (21 / 5) 500
          = 0.6 * (if 0 < (21 / 5 : ℚ) then ((21 / 5 : ℚ) : ℝ) / 5 else 0)
            + 0.4 * min 1 (Real.logb 10 ((500 : ℕ) + 1) / Real.logb 10 1000)
        ∧ year_quality (21 / 5) 500 = quality_score (21 / 5) 500
        ∧ 0 ≤ quality_score (21 / 5) 500 ∧ quality_score (21 / 5) 500 ≤ 1) :=
  ⟨by norm_num, by norm_num,
   quality_score_formula_bounds (21 / 5) 500 (by norm_num) (by norm_num)⟩

/-- C8 counterexample: two equal similarities; the selection returns index
1 before index 0, so a tie ranks the later catalog row first, not the
first inserted one. -/
theorem tie_prefers_later_index :
    selectTopIdx [1 / 2, 1 / 2] = [1, 0] ∧ ([1, 0] : List ℕ) ≠ [0, 1] :=
  ⟨by decide, by decide⟩

/-- C8 amended: the retriever selection is a pure function that picks
exactly the top min(20, corpus size) indices by descending similarity,
breaking ties by descending catalog order (the later inserted row first):
the selection has that length, holds valid indices, is sorted by the
descending-with-later-index-first order, and dominates every index left
out. -/
theorem retriever_selection_spec (v : List ℚ) :
    (selectTopIdx v).length = min 20 v.length
    ∧ (∀ i ∈ selectTopIdx v, i < v.length)
    ∧ List.Pairwise (fun i j => Srel v j i) (selectTopIdx v)
    ∧ ∀ j, j < v.length → j ∉ selectTopIdx v →
        ∀ i ∈ selectTopIdx v, Srel v j i := by
  have hlen : (argsort v).length = v.length :=
    (argsort_perm v).length_eq.trans (List.length_range _)
  have hrev : List.Pairwise (fun i j => Srel v j i) (argsort v).reverse :=
    List.pairwise_reverse.mpr (argsort_pairwise v)
  have hsel : selectTopIdx v = (argsort v).reverse.take (min 20 v.length) := rfl
  refine ⟨?_, ?_, ?_, ?_⟩
  · rw [hsel, List.length_take, List.length_reverse, hlen]
    omega
  · intro i hi
    rw [hsel] at hi
    have : i ∈ List.range v.length :=
      (argsort_perm v).mem_iff.mp (List.mem_reverse.mp (List.mem_of_mem_take hi))
    exact List.mem_range.mp this
  · rw [hsel]
    exact hrev.sublist (List.take_sublist _ _)
  · intro j hj hjn i hi
    have hjfull : j ∈ (argsort v).reverse :=
      List.mem_reverse.mpr ((argsort_perm v).mem_iff.mpr (List.mem_range.mpr hj))
    have hsplit : (argsort v).reverse
        = selectTopIdx v ++ (argsort v).reverse.drop (min 20 v.length) := by
      rw [hsel]
      exact (List.take_append_drop _ _).symm
    have hcross := (List.pairwise_append.mp (hsplit ▸ hrev)).2.2
    have hjrest : j ∈ (argsort v).reverse.drop (min 20 v.length) := by
      rcases List.mem_append.mp (hsplit ▸ hjfull) with h | h
      · exact absurd h hjn
      · exact h
    exact hcross i hi j hjrest

/-- C8 witness: the amended theorem at a 21-element vector of pairwise
distinct ascending similarities; row 0 (the smallest) is the one left out
and is dominated by selected row 20. -/
theorem retriever_selection_spec_witness :
    (selectTopIdx ((List.range 21).map (fun i => (i : ℚ)))).length
        = min 20 ((List.range 21).map (fun i => (i : ℚ))).length
      ∧ Srel ((List.range 21).map (fun i => (i : ℚ))) 0 20 :=
  ⟨(retriever_selection_spec ((List.range 21).map (fun i => (i : ℚ)))).1,
   (retriever_selection_spec ((List.range 21).map (fun i => (i : ℚ)))).2.2.2 0
     (by decide) (by decide) 20 (by decide)⟩

/-- C9 counterexample: ranked_indices [0, 0] makes the reranked head
duplicate candidate 1 and drop candidate 2 inside the slice, so the output
is not a permutation or prefix of the slice identities and nothing was
discarded. -/
theorem rerank_duplicate_indices_kept :
    (rerank_recommendations [candA, candB] (.parsed (some [0, 0]) [])).map
        Candidate.movieId = ["1", "1"]
    ∧ (["1", "1"] : List String) ≠ ["1", "2"]
    ∧ [candA, candB].map Candidate.movieId = ["1", "2"] :=
  ⟨by decide, by decide, by decide⟩

/-- C9 amended: the engine skips out-of-range indices one by one, so every
element of the reranked head is a copy of a candidate that was passed in,
with at most the reason field set — no invented identities — and an
unavailable or failing reranker leaves the list unchanged; duplicated or
missing in-range indices, however, are reproduced as given. -/
theorem rerank_output_identities (cands : List Candidate) (o : RerankOutcome) :
    (∀ c ∈ rerank_recommendations cands o,
      ∃ c' ∈ cands, c = c' ∨ ∃ r, c = { c' with reason := some r })
    ∧ rerank_recommendations cands .unavailable = cands :=
  ⟨fun _ hc => rerank_mem hc, rerank_unavailable cands⟩

/-- C9 witness: index list [1] yields a reason-annotated copy of candidate
2. -/
theorem rerank_output_identities_witness :
    ∃ c' ∈ [candA, candB],
      { candB with reason := some "推薦給你" } = c'
        ∨ ∃ r, { candB with reason := some "推薦給你" }
            = { c' with reason := some r } :=
  (rerank_output_identities [candA, candB] (.parsed (some [1]) [])).1
    { candB with reason := some "推薦給你" } (by decide)

/-- C10 counterexample: the year fast-path builds its result dicts without
the quality_score key, so a year request returns candidates that do not
carry it. -/
theorem year_path_missing_quality_key :
    recommend_by_text [movie1995] (simsConst [0]) (prefsYear 1995) .unavailable
        "q" 5
      = some [movieToCandidate movie1995]
    ∧ (movieToCandidate movie1995).hasQuality = false :=
  ⟨by decide, rfl⟩

/-- C10 amended: every candidate of a retrieval-path result carries the
quality_score key (stored by the ranking step and preserved by the
reranker annotation), and no candidate of a year fast-path result does;
id, title, genre field, avg_rating and rating_count are structural fields
of every candidate on both paths. -/
theorem quality_key_presence (movies : List Movie) (simsOf : String → List ℚ)
    (prefs : Preferences) (outcome : RerankOutcome) (user_text : String)
    (top_k : ℤ) :
    (∀ res, truthyYear prefs.year = none →
      recommend_by_text movies simsOf prefs outcome user_text top_k = some res →
      ∀ c ∈ res, c.hasQuality = true)
    ∧ ∀ res y, truthyYear prefs.year = some y →
        recommend_by_text movies simsOf prefs outcome user_text top_k = some res →
        ∀ c ∈ res, c.hasQuality = false := by
  constructor
  · intro res hyr hres c hc
    unfold recommend_by_text at hres
    split at hres
    · cases Option.some.inj hres
      simp at hc
    · split at hres
      · rename_i y heq
        exact absurd (heq.symm.trans hyr) (by simp)
      · split at hres
        · exact absurd hres (by simp)
        · rename_i ranked hrank
          rw [← Option.some.inj hres] at hc
          have hc2 := pySlice_subset _ _ _ hc
          have hc3 : ∃ c' ∈ ranked, c.hasQuality = c'.hasQuality := by
            rcases List.mem_append.mp hc2 with h | h
            · rcases rerank_mem h with ⟨c', hc', hor⟩
              refine ⟨c', List.mem_of_mem_take hc', ?_⟩
              rcases hor with rfl | ⟨r, rfl⟩
              · rfl
              · rfl
            · exact ⟨c, List.mem_of_mem_drop h, rfl⟩
          rcases hc3 with ⟨c', hc', hq⟩
          rcases rankByQuality_mem hrank hc' with ⟨c'', _, rfl⟩
          exact hq
  · intro res y hty hres c hc
    unfold recommend_by_text at hres
    split at hres
    · cases Option.some.inj hres
      simp at hc
    · split at hres
      · rcases Option.map_eq_some'.mp hres with ⟨l, hgm, hsl⟩
        have hc' : c ∈ l := pySlice_subset _ _ _ (hsl ▸ hc)
        rcases get_movies_by_year_mem hgm hc' with ⟨m, _, _, _, rfl⟩
        rfl
      · rename_i heq
        exact absurd (heq.symm.trans hty) (by simp)

/-- C10 witness: the key is present on a concrete retrieval result and
absent on a concrete year-path result. -/
theorem quality_key_presence_witness :
    ({ movieToCandidate movieComedy with hasQuality := true }).hasQuality = true
    ∧ (movieToCandidate movie1995).hasQuality = false :=
  ⟨(quality_key_presence [movieHorror, movieComedy] (simsConst [1, 1/2])
      prefsNoHorror .unavailable "q" 5).1
      [{ movieToCandidate movieComedy with hasQuality := true }] rfl (by decide)
      { movieToCandidate movieComedy with hasQuality := true } (by decide),
   (quality_key_presence [movie1995] (simsConst [0]) (prefsYear 1995)
      .unavailable "q" 5).2
      [movieToCandidate movie1995] 1995 rfl (by decide)
      (movieToCandidate movie1995) (by decide)⟩

end ClaimTheorems

end MovieRec
